import Mathlib

/-!
Verification of the eit-db SQL query construction core
(`query_builder.go`): the condition algebra, the dialect contract, the
translator, and the `SQLQueryConstructor` builder with its `Build`
finalization.  Go code is embedded shallowly: interface values become an
inductive `GoValue`, the mutable placeholder counter (`*int argIndex`)
becomes an explicitly threaded `Nat`, fallible functions return
`Except String`.
-/

namespace EitDB

/-- Go interface values as carried by condition operands: scalars or a
slice (`[]interface` braces elided).  The translator's type assertions on
`[]interface` correspond to matching the `list` constructor. -/
inductive GoValue where
  | str (s : String)
  | int (n : Int)
  | boolean (b : Bool)
  | null
  | list (elems : List GoValue)
deriving Repr

/-- Condition tree as used by `DefaultSQLTranslator.TranslateCondition`
(`query_builder.go`): the three shapes `SimpleCondition` (field,
operator tag, operand), `CompositeCondition` (combinator tag, children)
and `NotCondition` (one child).  The struct declarations themselves are
in a source file not provided, but their fields are fully determined by
the translator code that reads them. -/
inductive Condition where
  | simple (field : String) (operator : String) (value : GoValue)
  | composite (operator : String) (conditions : List Condition)
  | not (condition : Condition)
deriving Repr

/-- SQLDialect interface (`query_builder.go`): the rendering primitives
used by the translator and by `Build`.  `QuoteValue` is omitted: it is
never called on the translation/build paths the claims concern. -/
structure SQLDialect where
  name : String
  quoteIdentifier : String → String
  getPlaceholder : Nat → String
  generateLimitOffset : Option Int → Option Int → String

/-- DefaultSQLDialect.GenerateLimitOffset: collect `LIMIT n` and
`OFFSET m` parts for the present values and join them with a space. -/
def defaultGenerateLimitOffset (limit offset : Option Int) : String :=
  let parts : List String :=
    (match limit with
     | some n => ["LIMIT " ++ toString n]
     | none => []) ++
    (match offset with
     | some m => ["OFFSET " ++ toString m]
     | none => [])
  String.intercalate " " parts

/-- SQLServerDialect.GenerateLimitOffset: empty when both absent; with
an offset, `OFFSET m ROWS` plus `FETCH NEXT n ROWS ONLY` when a limit is
present; with only a limit, offset defaults to `OFFSET 0 ROWS`. -/
def sqlserverGenerateLimitOffset (limit offset : Option Int) : String :=
  match offset, limit with
  | none, none => ""
  | some m, some n =>
      "OFFSET " ++ toString m ++ " ROWS" ++
        " FETCH NEXT " ++ toString n ++ " ROWS ONLY"
  | some m, none => "OFFSET " ++ toString m ++ " ROWS"
  | none, some n => "OFFSET 0 ROWS FETCH NEXT " ++ toString n ++ " ROWS ONLY"

/-- MySQL dialect: backtick quoting, unnumbered `?` placeholders,
default LIMIT/OFFSET clause (`NewMySQLDialect`). -/
def mysqlDialect : SQLDialect :=
  { name := "mysql"
    quoteIdentifier := fun n => "`" ++ n ++ "`"
    getPlaceholder := fun _ => "?"
    generateLimitOffset := defaultGenerateLimitOffset }

/-- SQLite dialect: same primitives as the default (MySQL-compatible)
dialect (`NewSQLiteDialect`). -/
def sqliteDialect : SQLDialect :=
  { name := "sqlite"
    quoteIdentifier := fun n => "`" ++ n ++ "`"
    getPlaceholder := fun _ => "?"
    generateLimitOffset := defaultGenerateLimitOffset }

/-- PostgreSQL dialect: double-quote quoting, numbered `$n`
placeholders, default LIMIT/OFFSET clause (`NewPostgreSQLDialect`). -/
def postgresDialect : SQLDialect :=
  { name := "postgresql"
    quoteIdentifier := fun n => "\"" ++ n ++ "\""
    getPlaceholder := fun i => "$" ++ toString i
    generateLimitOffset := defaultGenerateLimitOffset }

/-- SQL Server dialect: bracket quoting, numbered `@pN` placeholders,
OFFSET/FETCH pagination (`NewSQLServerDialect`). -/
def sqlserverDialect : SQLDialect :=
  { name := "sqlserver"
    quoteIdentifier := fun n => "[" ++ n ++ "]"
    getPlaceholder := fun i => "@p" ++ toString i
    generateLimitOffset := sqlserverGenerateLimitOffset }

/-- Tail of the placeholder list emitted by the `in` loop: each further
placeholder is preceded by `", "`, and the counter advances once per
placeholder. -/
def phStringRest (d : SQLDialect) : Nat → Nat → String
  | _, 0 => ""
  | i, Nat.succ k => ", " ++ d.getPlaceholder i ++ phStringRest d (i + 1) k

/-- Comma-separated run of `count` placeholders starting at index `i`,
as emitted by the `in` case's loop (no separator before the first). -/
def phString (d : SQLDialect) (i : Nat) : Nat → String
  | 0 => ""
  | Nat.succ k => d.getPlaceholder i ++ phStringRest d (i + 1) k

/-- DefaultSQLTranslator.translateSimpleCondition: quoted field, a
space, then the operator-specific text.  Comparison operators and LIKE
emit one placeholder and one argument; `in` asserts the operand is a
slice and emits one placeholder per element; `between` asserts a slice,
emits exactly two placeholders and appends the whole slice as arguments
(no arity check in the source); an unknown tag is an error.  A failed
slice type assertion is a Go panic, embedded as a distinct error. -/
def translateSimpleCondition (d : SQLDialect) (field op : String)
    (value : GoValue) (argIndex : Nat) :
    Except String (String × List GoValue × Nat) :=
  let head := d.quoteIdentifier field ++ " "
  match op with
  | "eq" => .ok (head ++ ("= " ++ d.getPlaceholder argIndex), [value], argIndex + 1)
  | "ne" => .ok (head ++ ("!= " ++ d.getPlaceholder argIndex), [value], argIndex + 1)
  | "gt" => .ok (head ++ ("> " ++ d.getPlaceholder argIndex), [value], argIndex + 1)
  | "lt" => .ok (head ++ ("< " ++ d.getPlaceholder argIndex), [value], argIndex + 1)
  | "gte" => .ok (head ++ (">= " ++ d.getPlaceholder argIndex), [value], argIndex + 1)
  | "lte" => .ok (head ++ ("<= " ++ d.getPlaceholder argIndex), [value], argIndex + 1)
  | "in" =>
      match value with
      | .list values =>
          .ok (head ++ ("IN (" ++ phString d argIndex values.length ++ ")"),
               values, argIndex + values.length)
      | _ => .error "panic: interface conversion"
  | "like" => .ok (head ++ ("LIKE " ++ d.getPlaceholder argIndex), [value], argIndex + 1)
  | "between" =>
      match value with
      | .list minMax =>
          .ok (head ++ ("BETWEEN " ++ d.getPlaceholder argIndex ++
                (" AND " ++ d.getPlaceholder (argIndex + 1))),
               minMax, argIndex + 2)
      | _ => .error "panic: interface conversion"
  | _ => .error ("unsupported operator: " ++ op)

mutual

/-- DefaultSQLTranslator.TranslateCondition: dispatch on the condition
shape; `NOT` wraps the child's fragment in `NOT ( ... )`. -/
def translateCondition (d : SQLDialect) :
    Condition → Nat → Except String (String × List GoValue × Nat)
  | .simple f op v, i => translateSimpleCondition d f op v i
  | .composite op conds, i => translateComposite d op conds i
  | .not c, i =>
      match translateCondition d c i with
      | .error e => .error e
      | .ok (s, args, j) => .ok ("NOT (" ++ s ++ ")", args, j)
termination_by c => sizeOf c

/-- DefaultSQLTranslator.TranslateComposite: zero children is an error;
otherwise the children's fragments, each after the first preceded by the
combinator keyword (`OR` for tag "or", `AND` for any other tag) with
surrounding spaces, wrapped in one pair of parentheses. -/
def translateComposite (d : SQLDialect) (op : String)
    (conds : List Condition) (i : Nat) :
    Except String (String × List GoValue × Nat) :=
  match conds with
  | [] => .error "composite condition must have at least one condition"
  | c :: cs =>
      let sep := " " ++ (if op = "or" then "OR" else "AND") ++ " "
      match translateCondition d c i with
      | .error e => .error e
      | .ok (s, args, j) =>
          match translateCondRest d sep cs j with
          | .error e => .error e
          | .ok (s2, args2, k) => .ok ("(" ++ s ++ s2 ++ ")", args ++ args2, k)
termination_by sizeOf conds

/-- Loop tail shared by `TranslateComposite` and `Build`'s WHERE
section: translate each further condition, prefixing `sep` before its
fragment, concatenating fragments and argument lists in order while
threading the placeholder counter. -/
def translateCondRest (d : SQLDialect) (sep : String) :
    List Condition → Nat → Except String (String × List GoValue × Nat)
  | [], i => .ok ("", [], i)
  | c :: cs, i =>
      match translateCondition d c i with
      | .error e => .error e
      | .ok (s, args, j) =>
          match translateCondRest d sep cs j with
          | .error e => .error e
          | .ok (s2, args2, k) => .ok (sep ++ s ++ s2, args ++ args2, k)
termination_by cs => sizeOf cs

end

/-- OrderBy entry accumulated on the builder: a field plus a direction
string. -/
structure OrderBy where
  Field : String
  Direction : String
deriving Repr, DecidableEq

/-- SQLQueryConstructor state.  The Go `Schema` interface is used by
`Build` only through `TableName()`, so it is embedded as that name. -/
structure SQLQueryConstructor where
  schema : String
  dialect : SQLDialect
  selectedCols : List String
  conditions : List Condition
  orderBys : List OrderBy
  limitVal : Option Int
  offsetVal : Option Int

/-- NewSQLQueryConstructor: all accumulation fields start empty and the
limit/offset pointers start nil. -/
def NewSQLQueryConstructor (schema : String) (dialect : SQLDialect) :
    SQLQueryConstructor :=
  { schema := schema, dialect := dialect, selectedCols := [],
    conditions := [], orderBys := [], limitVal := none, offsetVal := none }

/-- Where: append one top-level condition.  (The Go guard against a nil
condition has no counterpart: `Condition` values are never nil here.) -/
def SQLQueryConstructor.Where (qb : SQLQueryConstructor) (c : Condition) :
    SQLQueryConstructor :=
  { qb with conditions := qb.conditions ++ [c] }

/-- Modelled from the spec: the condition constructor functions and the
`SimpleCondition`/`CompositeCondition`/`NotCondition` declarations are
in a source file that was not provided; per spec section 3 the
combinator tags are conjunction and disjunction, and the translator in
`query_builder.go` matches the tag string "or" (anything else joins with
AND), so `And` carries tag "and" and `Or` carries tag "or". -/
def And (conds : List Condition) : Condition := .composite "and" conds

/-- Modelled from the spec: disjunction combinator, tag "or" as matched
by `TranslateComposite`. -/
def Or (conds : List Condition) : Condition := .composite "or" conds

/-- Modelled from the spec: equality constructor; the translator matches
operator tag "eq" with a single scalar operand. -/
def Eq (field : String) (value : GoValue) : Condition :=
  .simple field "eq" value

/-- Modelled from the spec: membership constructor; the tests call it
variadically (`In("age", 18, 21, 25, 30)`) and the translator's "in"
case asserts the operand is a slice, so `In` wraps its values in one
slice operand. -/
def In (field : String) (values : List GoValue) : Condition :=
  .simple field "in" (.list values)

/-- Modelled from the spec: range constructor with exactly two scalars
(low, high) packed into one slice operand, as read by the translator's
"between" case. -/
def Between (field : String) (low high : GoValue) : Condition :=
  .simple field "between" (.list [low, high])

/-- WhereAll: with at least one condition, append a single AND-composite
wrapping the given list; with zero conditions do nothing (no error is
raised — the method has no error channel). -/
def SQLQueryConstructor.WhereAll (qb : SQLQueryConstructor)
    (conds : List Condition) : SQLQueryConstructor :=
  if conds.length > 0 then
    { qb with conditions := qb.conditions ++ [And conds] }
  else qb

/-- WhereAny: the OR analogue of `WhereAll`. -/
def SQLQueryConstructor.WhereAny (qb : SQLQueryConstructor)
    (conds : List Condition) : SQLQueryConstructor :=
  if conds.length > 0 then
    { qb with conditions := qb.conditions ++ [Or conds] }
  else qb

/-- Select: append the given fields to the selected-column list. -/
def SQLQueryConstructor.Select (qb : SQLQueryConstructor)
    (fields : List String) : SQLQueryConstructor :=
  { qb with selectedCols := qb.selectedCols ++ fields }

/-- Uppercasing as applied by `OrderBy`, embedding Go's
`strings.ToUpper`: every character is mapped to its uppercase form (they
agree on the ASCII directions the normalization distinguishes). -/
def goToUpper (s : String) : String :=
  ⟨s.data.map Char.toUpper⟩

/-- OrderBy: uppercase the direction, silently replace anything other
than ASC/DESC by ASC, and append the entry. -/
def SQLQueryConstructor.OrderBy (qb : SQLQueryConstructor)
    (field direction : String) : SQLQueryConstructor :=
  let dir := goToUpper direction
  let dir := if dir ≠ "ASC" ∧ dir ≠ "DESC" then "ASC" else dir
  { qb with orderBys := qb.orderBys ++ [{ Field := field, Direction := dir }] }

/-- Limit: set the limit (last call wins). -/
def SQLQueryConstructor.Limit (qb : SQLQueryConstructor) (count : Int) :
    SQLQueryConstructor :=
  { qb with limitVal := some count }

/-- Offset: set the offset (last call wins). -/
def SQLQueryConstructor.Offset (qb : SQLQueryConstructor) (count : Int) :
    SQLQueryConstructor :=
  { qb with offsetVal := some count }

/-- Loop tail of `Build`'s selected-column rendering: every column after
the first is preceded by `", "`. -/
def quotedColsRest (d : SQLDialect) : List String → String
  | [] => ""
  | c :: cs => ", " ++ d.quoteIdentifier c ++ quotedColsRest d cs

/-- Selected-column list as rendered by `Build`'s loop. -/
def quotedCols (d : SQLDialect) : List String → String
  | [] => ""
  | c :: cs => d.quoteIdentifier c ++ quotedColsRest d cs

/-- Loop tail of `Build`'s ORDER BY rendering. -/
def orderBysStringRest (d : SQLDialect) : List OrderBy → String
  | [] => ""
  | o :: os =>
      ", " ++ d.quoteIdentifier o.Field ++ " " ++ o.Direction ++
        orderBysStringRest d os

/-- ORDER BY entries as rendered by `Build`'s loop: quoted field, one
space, the stored direction, comma-separated. -/
def orderBysString (d : SQLDialect) : List OrderBy → String
  | [] => ""
  | o :: os =>
      d.quoteIdentifier o.Field ++ " " ++ o.Direction ++
        orderBysStringRest d os

/-- SQLQueryConstructor.Build: assemble `SELECT`/`FROM`, then the WHERE
section (conditions joined by `" AND "`, placeholder counter starting at
1, each translation failure wrapped as "failed to translate condition:
..."), then ORDER BY, then the dialect's limit/offset clause preceded by
one space when non-empty.  The builder itself is only read. -/
def SQLQueryConstructor.Build (qb : SQLQueryConstructor) :
    Except String (String × List GoValue) :=
  let sqlSelect :=
    "SELECT " ++
      (if qb.selectedCols.length > 0 then quotedCols qb.dialect qb.selectedCols
       else "*")
  let sqlFrom := " FROM " ++ qb.dialect.quoteIdentifier qb.schema
  let whereRes : Except String (String × List GoValue) :=
    match qb.conditions with
    | [] => .ok ("", [])
    | c :: cs =>
        match translateCondition qb.dialect c 1 with
        | .error e => .error ("failed to translate condition: " ++ e)
        | .ok (s1, a1, i1) =>
            match translateCondRest qb.dialect " AND " cs i1 with
            | .error e => .error ("failed to translate condition: " ++ e)
            | .ok (s2, a2, _) => .ok (" WHERE " ++ s1 ++ s2, a1 ++ a2)
  match whereRes with
  | .error e => .error e
  | .ok (whereSQL, args) =>
      let orderSQL :=
        if qb.orderBys.length > 0 then
          " ORDER BY " ++ orderBysString qb.dialect qb.orderBys
        else ""
      let lo := qb.dialect.generateLimitOffset qb.limitVal qb.offsetVal
      let loSQL := if lo ≠ "" then " " ++ lo else ""
      .ok (sqlSelect ++ sqlFrom ++ whereSQL ++ orderSQL ++ loSQL, args)

/-- Receiver-state view of a `Build` call: the Go method body contains
no assignment to any receiver field, so the post-call builder equals the
pre-call builder; the pair makes that explicit for the non-mutation
claim. -/
def SQLQueryConstructor.BuildS (qb : SQLQueryConstructor) :
    Except String (String × List GoValue) × SQLQueryConstructor :=
  (qb.Build, qb)

/-! ### Token-level view of the emitted SQL

The emitted text decomposes into literal SQL fragments, quoted
identifiers, and parameter placeholders.  The token translators below
mirror the string translators step for step; the factorization theorems
further down prove the string output is exactly the dialect rendering of
the token output.  Placeholder positions and indices are then readable
off the token list. -/

/-- One emitted unit: literal text, an identifier to be quoted by the
dialect, or the placeholder for parameter index `i`. -/
inductive SqlTok where
  | raw (s : String)
  | ident (name : String)
  | ph (index : Nat)
deriving Repr, DecidableEq

/-- Dialect rendering of one token. -/
def renderTok (d : SQLDialect) : SqlTok → String
  | .raw s => s
  | .ident n => d.quoteIdentifier n
  | .ph i => d.getPlaceholder i

/-- Dialect rendering of a token list, in order. -/
def renderToks (d : SQLDialect) : List SqlTok → String
  | [] => ""
  | t :: ts => renderTok d t ++ renderToks d ts

/-- Parameter index of a placeholder token, if it is one. -/
def SqlTok.phIndex : SqlTok → Option Nat
  | .ph i => some i
  | _ => none

/-- Indices of the placeholder tokens in left-to-right order. -/
def phIndices (ts : List SqlTok) : List Nat :=
  ts.filterMap SqlTok.phIndex

/-- Token form of `phStringRest`. -/
def phToksRest : Nat → Nat → List SqlTok
  | _, 0 => []
  | i, Nat.succ k => .raw ", " :: .ph i :: phToksRest (i + 1) k

/-- Token form of `phString`. -/
def phToks (i : Nat) : Nat → List SqlTok
  | 0 => []
  | Nat.succ k => .ph i :: phToksRest (i + 1) k

/-- Token form of `translateSimpleCondition`.  Note it does not depend
on the dialect: dialect choice only affects rendering. -/
def simpleCondToks (field op : String) (value : GoValue) (argIndex : Nat) :
    Except String (List SqlTok × List GoValue × Nat) :=
  let head : List SqlTok := [.ident field, .raw " "]
  match op with
  | "eq" => .ok (head ++ [.raw "= ", .ph argIndex], [value], argIndex + 1)
  | "ne" => .ok (head ++ [.raw "!= ", .ph argIndex], [value], argIndex + 1)
  | "gt" => .ok (head ++ [.raw "> ", .ph argIndex], [value], argIndex + 1)
  | "lt" => .ok (head ++ [.raw "< ", .ph argIndex], [value], argIndex + 1)
  | "gte" => .ok (head ++ [.raw ">= ", .ph argIndex], [value], argIndex + 1)
  | "lte" => .ok (head ++ [.raw "<= ", .ph argIndex], [value], argIndex + 1)
  | "in" =>
      match value with
      | .list values =>
          .ok (head ++ ([.raw "IN ("] ++ phToks argIndex values.length ++ [.raw ")"]),
               values, argIndex + values.length)
      | _ => .error "panic: interface conversion"
  | "like" => .ok (head ++ [.raw "LIKE ", .ph argIndex], [value], argIndex + 1)
  | "between" =>
      match value with
      | .list minMax =>
          .ok (head ++ [.raw "BETWEEN ", .ph argIndex, .raw " AND ",
                .ph (argIndex + 1)],
               minMax, argIndex + 2)
      | _ => .error "panic: interface conversion"
  | _ => .error ("unsupported operator: " ++ op)

mutual

/-- Token form of `translateCondition`. -/
def condToks : Condition → Nat → Except String (List SqlTok × List GoValue × Nat)
  | .simple f op v, i => simpleCondToks f op v i
  | .composite op conds, i => compositeToks op conds i
  | .not c, i =>
      match condToks c i with
      | .error e => .error e
      | .ok (ts, args, j) => .ok ([.raw "NOT ("] ++ ts ++ [.raw ")"], args, j)
termination_by c => sizeOf c

/-- Token form of `translateComposite`. -/
def compositeToks (op : String) (conds : List Condition) (i : Nat) :
    Except String (List SqlTok × List GoValue × Nat) :=
  match conds with
  | [] => .error "composite condition must have at least one condition"
  | c :: cs =>
      let sep := " " ++ (if op = "or" then "OR" else "AND") ++ " "
      match condToks c i with
      | .error e => .error e
      | .ok (ts, args, j) =>
          match condRestToks sep cs j with
          | .error e => .error e
          | .ok (ts2, args2, k) =>
              .ok ([.raw "("] ++ ts ++ ts2 ++ [.raw ")"], args ++ args2, k)
termination_by sizeOf conds

/-- Token form of `translateCondRest`. -/
def condRestToks (sep : String) :
    List Condition → Nat → Except String (List SqlTok × List GoValue × Nat)
  | [], i => .ok ([], [], i)
  | c :: cs, i =>
      match condToks c i with
      | .error e => .error e
      | .ok (ts, args, j) =>
          match condRestToks sep cs j with
          | .error e => .error e
          | .ok (ts2, args2, k) =>
              .ok ([.raw sep] ++ ts ++ ts2, args ++ args2, k)
termination_by cs => sizeOf cs

end

/-- Token form of `quotedColsRest`. -/
def quotedColsRestToks : List String → List SqlTok
  | [] => []
  | c :: cs => .raw ", " :: .ident c :: quotedColsRestToks cs

/-- Token form of `quotedCols`. -/
def quotedColsToks : List String → List SqlTok
  | [] => []
  | c :: cs => .ident c :: quotedColsRestToks cs

/-- Token form of `orderBysStringRest`. -/
def orderBysToksRest : List OrderBy → List SqlTok
  | [] => []
  | o :: os =>
      .raw ", " :: .ident o.Field :: .raw " " :: .raw o.Direction ::
        orderBysToksRest os

/-- Token form of `orderBysString`. -/
def orderBysToks : List OrderBy → List SqlTok
  | [] => []
  | o :: os =>
      .ident o.Field :: .raw " " :: .raw o.Direction :: orderBysToksRest os

/-- Token form of `Build`.  The dialect enters only through the
limit/offset clause, which contains no placeholders and is kept as one
raw token. -/
def buildToks (qb : SQLQueryConstructor) :
    Except String (List SqlTok × List GoValue) :=
  let selToks : List SqlTok :=
    [.raw "SELECT "] ++
      (if qb.selectedCols.length > 0 then quotedColsToks qb.selectedCols
       else [.raw "*"])
  let fromToks : List SqlTok := [.raw " FROM ", .ident qb.schema]
  let whereRes : Except String (List SqlTok × List GoValue) :=
    match qb.conditions with
    | [] => .ok ([], [])
    | c :: cs =>
        match condToks c 1 with
        | .error e => .error ("failed to translate condition: " ++ e)
        | .ok (ts1, a1, i1) =>
            match condRestToks " AND " cs i1 with
            | .error e => .error ("failed to translate condition: " ++ e)
            | .ok (ts2, a2, _) =>
                .ok ([.raw " WHERE "] ++ ts1 ++ ts2, a1 ++ a2)
  match whereRes with
  | .error e => .error e
  | .ok (whereToks, args) =>
      let orderToks : List SqlTok :=
        if qb.orderBys.length > 0 then
          [.raw " ORDER BY "] ++ orderBysToks qb.orderBys
        else []
      let lo := qb.dialect.generateLimitOffset qb.limitVal qb.offsetVal
      let loToks : List SqlTok := if lo ≠ "" then [.raw (" " ++ lo)] else []
      .ok (selToks ++ fromToks ++ whereToks ++ orderToks ++ loToks, args)

/-- Rendering applied through the `Except`/tuple of a condition-level
translation result. -/
def mapRender (d : SQLDialect) :
    Except String (List SqlTok × List GoValue × Nat) →
      Except String (String × List GoValue × Nat)
  | .error e => .error e
  | .ok (ts, args, j) => .ok (renderToks d ts, args, j)

/-- Rendering applied through the result of a build-level translation. -/
def mapRenderBuild (d : SQLDialect) :
    Except String (List SqlTok × List GoValue) →
      Except String (String × List GoValue)
  | .error e => .error e
  | .ok (ts, args) => .ok (renderToks d ts, args)

/-- Modelled from the spec: shape invariant of condition trees as
established by the constructor functions of the condition algebra (whose
source file is not provided), per spec section 3 — a recognized operator
tag for simple conditions, a sequence operand for membership, exactly
two scalars (low, high) for range, a conjunction/disjunction tag and a
non-empty child list for composites. -/
inductive WellFormed : Condition → Prop where
  | cmp (f op : String) (v : GoValue)
      (hop : op = "eq" ∨ op = "ne" ∨ op = "gt" ∨ op = "lt" ∨ op = "gte" ∨
        op = "lte" ∨ op = "like") :
      WellFormed (.simple f op v)
  | inList (f : String) (vs : List GoValue) :
      WellFormed (.simple f "in" (.list vs))
  | betweenPair (f : String) (lo hi : GoValue) :
      WellFormed (.simple f "between" (.list [lo, hi]))
  | comp (op : String) (conds : List Condition)
      (hop : op = "and" ∨ op = "or") (hne : conds ≠ [])
      (hall : ∀ c ∈ conds, WellFormed c) :
      WellFormed (.composite op conds)
  | neg (c : Condition) (h : WellFormed c) : WellFormed (.not c)

/-- Per-child translation that keeps the children's fragments as a list
instead of concatenating them while looping; used to state what the
composite loop produces. -/
def seqTranslate (d : SQLDialect) :
    List Condition → Nat → Except String (List String × List GoValue × Nat)
  | [], i => .ok ([], [], i)
  | c :: cs, i =>
      match translateCondition d c i with
      | .error e => .error e
      | .ok (s, args, j) =>
          match seqTranslate d cs j with
          | .error e => .error e
          | .ok (ss, args2, k) => .ok (s :: ss, args ++ args2, k)

/-- Fragments joined by a separator, one separator between neighbours. -/
def joinSep (sep : String) : List String → String
  | [] => ""
  | [s] => s
  | s :: s2 :: ss => s ++ sep ++ joinSep sep (s2 :: ss)

/-- Separator-prefixed concatenation, the shape the composite loop tail
produces. -/
def sepConcat (sep : String) : List String → String
  | [] => ""
  | s :: ss => sep ++ s ++ sepConcat sep ss

theorem renderToks_append (d : SQLDialect) (ts1 ts2 : List SqlTok) :
    renderToks d (ts1 ++ ts2) = renderToks d ts1 ++ renderToks d ts2 := by
  induction ts1 with
  | nil => simp [renderToks, String.empty_append]
  | cons t ts ih => simp [renderToks, ih, String.append_assoc]

theorem renderToks_phToksRest (d : SQLDialect) (n i : Nat) :
    renderToks d (phToksRest i n) = phStringRest d i n := by
  induction n generalizing i with
  | zero => rfl
  | succ k ih =>
      simp [phToksRest, phStringRest, renderToks, renderTok, ih,
        String.append_assoc]

theorem renderToks_phToks (d : SQLDialect) (n i : Nat) :
    renderToks d (phToks i n) = phString d i n := by
  cases n with
  | zero => rfl
  | succ k =>
      simp [phToks, phString, renderToks, renderTok, renderToks_phToksRest,
        String.append_assoc]

theorem translateSimple_eq_render (d : SQLDialect) (f op : String)
    (v : GoValue) (i : Nat) :
    translateSimpleCondition d f op v i = mapRender d (simpleCondToks f op v i) := by
  unfold translateSimpleCondition simpleCondToks
  repeat' split
  all_goals
    simp_all [mapRender, renderToks, renderTok, renderToks_append,
      renderToks_phToks, String.append_assoc, String.append_empty]

mutual

theorem translateCondition_eq_render (d : SQLDialect) (c : Condition) (i : Nat) :
    translateCondition d c i = mapRender d (condToks c i) := by
  match c with
  | .simple f op v =>
      simpa [translateCondition, condToks] using translateSimple_eq_render d f op v i
  | .composite op conds =>
      have h := translateComposite_eq_render d op conds i
      simpa [translateCondition, condToks] using h
  | .not c' =>
      have ih := translateCondition_eq_render d c' i
      simp only [translateCondition, condToks, ih]
      cases h : condToks c' i with
      | error e => simp [mapRender]
      | ok x =>
          obtain ⟨ts, args, j⟩ := x
          simp [mapRender, renderToks_append, renderToks, renderTok,
            String.append_assoc, String.append_empty]
termination_by sizeOf c

theorem translateComposite_eq_render (d : SQLDialect) (op : String)
    (conds : List Condition) (i : Nat) :
    translateComposite d op conds i = mapRender d (compositeToks op conds i) := by
  match conds with
  | [] => simp [translateComposite, compositeToks, mapRender]
  | c :: cs =>
      have ih1 := translateCondition_eq_render d c i
      simp only [translateComposite, compositeToks, ih1]
      cases h1 : condToks c i with
      | error e => simp [mapRender]
      | ok x =>
          obtain ⟨ts, args, j⟩ := x
          have ih2 := translateCondRest_eq_render d
            (" " ++ (if op = "or" then "OR" else "AND") ++ " ") cs j
          simp only [mapRender, ih2]
          cases h2 : condRestToks (" " ++ (if op = "or" then "OR" else "AND") ++ " ") cs j with
          | error e => simp [mapRender]
          | ok y =>
              obtain ⟨ts2, args2, k⟩ := y
              simp [mapRender, renderToks_append, renderToks, renderTok,
                String.append_assoc, String.append_empty]
termination_by sizeOf conds

theorem translateCondRest_eq_render (d : SQLDialect) (sep : String)
    (cs : List Condition) (i : Nat) :
    translateCondRest d sep cs i = mapRender d (condRestToks sep cs i) := by
  match cs with
  | [] => simp [translateCondRest, condRestToks, mapRender, renderToks]
  | c :: cs' =>
      have ih1 := translateCondition_eq_render d c i
      simp only [translateCondRest, condRestToks, ih1]
      cases h1 : condToks c i with
      | error e => simp [mapRender]
      | ok x =>
          obtain ⟨ts, args, j⟩ := x
          have ih2 := translateCondRest_eq_render d sep cs' j
          simp only [mapRender, ih2]
          cases h2 : condRestToks sep cs' j with
          | error e => simp [mapRender]
          | ok y =>
              obtain ⟨ts2, args2, k⟩ := y
              simp [mapRender, renderToks_append, renderToks, renderTok,
                String.append_assoc, String.append_empty]
termination_by sizeOf cs

end

theorem renderToks_quotedColsRestToks (d : SQLDialect) (cs : List String) :
    renderToks d (quotedColsRestToks cs) = quotedColsRest d cs := by
  induction cs with
  | nil => rfl
  | cons c cs ih =>
      simp [quotedColsRestToks, quotedColsRest, renderToks, renderTok, ih,
        String.append_assoc]

theorem renderToks_quotedColsToks (d : SQLDialect) (cs : List String) :
    renderToks d (quotedColsToks cs) = quotedCols d cs := by
  cases cs with
  | nil => rfl
  | cons c cs =>
      simp [quotedColsToks, quotedCols, renderToks, renderTok,
        renderToks_quotedColsRestToks, String.append_assoc]

theorem renderToks_orderBysToksRest (d : SQLDialect) (os : List OrderBy) :
    renderToks d (orderBysToksRest os) = orderBysStringRest d os := by
  induction os with
  | nil => rfl
  | cons o os ih =>
      simp [orderBysToksRest, orderBysStringRest, renderToks, renderTok, ih,
        String.append_assoc]

theorem renderToks_orderBysToks (d : SQLDialect) (os : List OrderBy) :
    renderToks d (orderBysToks os) = orderBysString d os := by
  cases os with
  | nil => rfl
  | cons o os =>
      simp [orderBysToks, orderBysString, renderToks, renderTok,
        renderToks_orderBysToksRest, String.append_assoc]

theorem build_eq_render (qb : SQLQueryConstructor) :
    qb.Build = mapRenderBuild qb.dialect (buildToks qb) := by
  unfold SQLQueryConstructor.Build buildToks
  cases hc : qb.conditions with
  | nil =>
      split_ifs <;>
        simp_all [mapRenderBuild, renderToks_append, renderToks, renderTok,
          renderToks_quotedColsToks, renderToks_orderBysToks,
          String.append_empty, ← String.append_assoc] <;>
        try (split <;>
          simp_all [renderToks, renderTok, String.append_empty,
            ← String.append_assoc])
  | cons c cs =>
      simp only [translateCondition_eq_render, translateCondRest_eq_render]
      cases h1 : condToks c 1 with
      | error e =>
          simp [h1, mapRender, mapRenderBuild]
      | ok x =>
          obtain ⟨ts1, a1, i1⟩ := x
          cases h2 : condRestToks " AND " cs i1 with
          | error e => simp [h1, h2, mapRender, mapRenderBuild]
          | ok y =>
              obtain ⟨ts2, a2, k⟩ := y
              split_ifs <;>
                simp_all [mapRender, mapRenderBuild, renderToks_append,
                  renderToks, renderTok, renderToks_quotedColsToks,
                  renderToks_orderBysToks, String.append_empty,
                  ← String.append_assoc]

theorem phIndices_nil : phIndices [] = [] := rfl

theorem phIndices_cons_raw (s : String) (ts : List SqlTok) :
    phIndices (.raw s :: ts) = phIndices ts := by
  simp [phIndices, SqlTok.phIndex]

theorem phIndices_cons_ident (s : String) (ts : List SqlTok) :
    phIndices (.ident s :: ts) = phIndices ts := by
  simp [phIndices, SqlTok.phIndex]

theorem phIndices_cons_ph (i : Nat) (ts : List SqlTok) :
    phIndices (.ph i :: ts) = i :: phIndices ts := by
  simp [phIndices, SqlTok.phIndex]

theorem phIndices_append (ts1 ts2 : List SqlTok) :
    phIndices (ts1 ++ ts2) = phIndices ts1 ++ phIndices ts2 := by
  simp [phIndices, List.filterMap_append]

theorem phIndices_phToksRest (n i : Nat) :
    phIndices (phToksRest i n) = List.range' i n := by
  induction n generalizing i with
  | zero => rfl
  | succ k ih =>
      simp [phToksRest, phIndices_cons_raw, phIndices_cons_ph, ih,
        List.range'_succ]

theorem phIndices_phToks (n i : Nat) :
    phIndices (phToks i n) = List.range' i n := by
  cases n with
  | zero => rfl
  | succ k =>
      simp [phToks, phIndices_cons_ph, phIndices_phToksRest, List.range'_succ]

theorem range'_add_split (s a b : Nat) :
    List.range' s (a + b) = List.range' s a ++ List.range' (s + a) b := by
  have h := List.range'_append s a b 1
  rw [Nat.one_mul] at h
  rw [Nat.add_comm a b]
  exact h.symm

theorem simpleCondToks_cmp (f : String) (v : GoValue) (i : Nat) (op : String)
    (hop : op = "eq" ∨ op = "ne" ∨ op = "gt" ∨ op = "lt" ∨ op = "gte" ∨
      op = "lte" ∨ op = "like") :
    ∃ ts, simpleCondToks f op v i = .ok (ts, [v], i + 1) ∧ phIndices ts = [i] := by
  rcases hop with h | h | h | h | h | h | h <;> subst h <;>
    exact ⟨_, rfl, by
      simp [phIndices_cons_raw, phIndices_cons_ident, phIndices_cons_ph,
        phIndices_nil]⟩

theorem condRestToks_wf (sep : String) (cs : List Condition)
    (H : ∀ c ∈ cs, ∀ i, ∃ ts args,
      condToks c i = .ok (ts, args, i + args.length) ∧
        phIndices ts = List.range' i args.length) :
    ∀ i, ∃ ts args, condRestToks sep cs i = .ok (ts, args, i + args.length) ∧
      phIndices ts = List.range' i args.length := by
  induction cs with
  | nil =>
      intro i
      exact ⟨[], [], by simp [condRestToks], by simp [phIndices_nil]⟩
  | cons c cs ih =>
      intro i
      obtain ⟨ts1, a1, h1, hp1⟩ := H c (by simp) i
      obtain ⟨ts2, a2, h2, hp2⟩ :=
        ih (fun c' hc' => H c' (by simp [hc'])) (i + a1.length)
      refine ⟨[.raw sep] ++ ts1 ++ ts2, a1 ++ a2, ?_, ?_⟩
      · simp [condRestToks, h1, h2, Nat.add_assoc]
      · rw [List.append_assoc, phIndices_append]
        simp only [phIndices_cons_raw, phIndices_nil, List.nil_append,
          phIndices_append, hp1, hp2, List.length_append]
        rw [← range'_add_split]

theorem condToks_wf (c : Condition) (h : WellFormed c) :
    ∀ i, ∃ ts args, condToks c i = .ok (ts, args, i + args.length) ∧
      phIndices ts = List.range' i args.length := by
  induction h with
  | cmp f op v hop =>
      intro i
      obtain ⟨ts, hts, hp⟩ := simpleCondToks_cmp f v i op hop
      exact ⟨ts, [v], by simp [condToks, hts], by simp [hp, List.range'_one]⟩
  | inList f vs =>
      intro i
      refine ⟨[.ident f, .raw " "] ++
          ([.raw "IN ("] ++ phToks i vs.length ++ [.raw ")"]), vs,
        by simp [condToks, simpleCondToks], ?_⟩
      simp [phIndices_append, phIndices_cons_raw, phIndices_cons_ident,
        phIndices_nil, phIndices_phToks]
  | betweenPair f lo hi =>
      intro i
      refine ⟨[.ident f, .raw " "] ++ [.raw "BETWEEN ", .ph i, .raw " AND ",
          .ph (i + 1)], [lo, hi],
        by simp [condToks, simpleCondToks], ?_⟩
      simp [phIndices_append, phIndices_cons_raw, phIndices_cons_ident,
        phIndices_cons_ph, phIndices_nil, List.range'_succ, List.range'_one]
  | comp op conds hop hne hall ih =>
      intro i
      cases conds with
      | nil => exact absurd rfl hne
      | cons c cs =>
          obtain ⟨ts1, a1, h1, hp1⟩ := ih c (by simp) i
          obtain ⟨ts2, a2, h2, hp2⟩ :=
            condRestToks_wf (" " ++ (if op = "or" then "OR" else "AND") ++ " ")
              cs (fun c' hc' => ih c' (by simp [hc'])) (i + a1.length)
          refine ⟨[.raw "("] ++ ts1 ++ ts2 ++ [.raw ")"], a1 ++ a2, ?_, ?_⟩
          · simp [condToks, compositeToks, h1, h2, Nat.add_assoc]
          · rw [List.append_assoc, List.append_assoc, phIndices_append]
            simp only [phIndices_cons_raw, phIndices_nil, List.nil_append,
              phIndices_append, hp1, hp2, List.length_append]
            rw [List.append_nil, ← range'_add_split]
  | neg c' h ih =>
      intro i
      obtain ⟨ts1, a1, h1, hp1⟩ := ih i
      refine ⟨[.raw "NOT ("] ++ ts1 ++ [.raw ")"], a1, ?_, ?_⟩
      · simp [condToks, h1]
      · rw [List.append_assoc, phIndices_append]
        simp [phIndices_cons_raw, phIndices_nil, phIndices_append, hp1]

theorem phIndices_quotedColsRestToks (cs : List String) :
    phIndices (quotedColsRestToks cs) = [] := by
  induction cs with
  | nil => rfl
  | cons c cs ih =>
      simp [quotedColsRestToks, phIndices_cons_raw, phIndices_cons_ident, ih]

theorem phIndices_quotedColsToks (cs : List String) :
    phIndices (quotedColsToks cs) = [] := by
  cases cs with
  | nil => rfl
  | cons c cs =>
      simp [quotedColsToks, phIndices_cons_ident, phIndices_quotedColsRestToks]

theorem phIndices_orderBysToksRest (os : List OrderBy) :
    phIndices (orderBysToksRest os) = [] := by
  induction os with
  | nil => rfl
  | cons o os ih =>
      simp [orderBysToksRest, phIndices_cons_raw, phIndices_cons_ident, ih]

theorem phIndices_orderBysToks (os : List OrderBy) :
    phIndices (orderBysToks os) = [] := by
  cases os with
  | nil => rfl
  | cons o os =>
      simp [orderBysToks, phIndices_cons_raw, phIndices_cons_ident,
        phIndices_orderBysToksRest]

theorem buildToks_wf (qb : SQLQueryConstructor)
    (h : ∀ c ∈ qb.conditions, WellFormed c) :
    ∃ ts args, buildToks qb = .ok (ts, args) ∧
      phIndices ts = List.range' 1 args.length := by
  cases hc : qb.conditions with
  | nil =>
      simp only [buildToks, hc]
      split_ifs <;>
        exact ⟨_, [], rfl, by
          simp [phIndices_append, phIndices_cons_raw, phIndices_cons_ident,
            phIndices_nil, phIndices_quotedColsToks, phIndices_orderBysToks]⟩
  | cons c cs =>
      rw [hc] at h
      obtain ⟨ts1, a1, h1, hp1⟩ := condToks_wf c (h c (by simp)) 1
      obtain ⟨ts2, a2, h2, hp2⟩ :=
        condRestToks_wf " AND " cs
          (fun c' hc' => condToks_wf c' (h c' (by simp [hc']))) (1 + a1.length)
      simp only [buildToks, hc, h1, h2]
      split_ifs <;>
        exact ⟨_, a1 ++ a2, rfl, by
          simp [phIndices_append, phIndices_cons_raw, phIndices_cons_ident,
            phIndices_nil, phIndices_quotedColsToks, phIndices_orderBysToks,
            hp1, hp2, List.length_append, ← range'_add_split]
          try omega⟩

theorem joinSep_cons (sep s : String) (ss : List String) :
    joinSep sep (s :: ss) = s ++ sepConcat sep ss := by
  induction ss generalizing s with
  | nil => simp [joinSep, sepConcat, String.append_empty]
  | cons s2 ss ih =>
      simp [joinSep, sepConcat, ih, String.append_assoc]

theorem translateCondRest_seq (d : SQLDialect) (sep : String)
    (cs : List Condition) :
    ∀ i frags args j, seqTranslate d cs i = .ok (frags, args, j) →
      translateCondRest d sep cs i = .ok (sepConcat sep frags, args, j) := by
  induction cs with
  | nil =>
      intro i frags args j hseq
      simp [seqTranslate] at hseq
      obtain ⟨h1, h2, h3⟩ := hseq
      subst h1; subst h2; subst h3
      simp [translateCondRest, sepConcat]
  | cons c cs ih =>
      intro i frags args j hseq
      simp only [seqTranslate] at hseq
      cases h1 : translateCondition d c i with
      | error e => simp [h1] at hseq
      | ok x =>
          obtain ⟨s, a1, j1⟩ := x
          simp only [h1] at hseq
          cases h2 : seqTranslate d cs j1 with
          | error e => simp [h2] at hseq
          | ok y =>
              obtain ⟨ss, a2, k⟩ := y
              simp only [h2] at hseq
              simp at hseq
              obtain ⟨hf, ha, hj⟩ := hseq
              subst_vars
              simp [translateCondRest, h1, ih j1 ss a2 k h2, sepConcat,
                String.append_assoc]

/-- Claim C1: for every builder whose condition trees are well-shaped
(the shapes the spec's condition algebra can construct) and any dialect,
`Build` succeeds and its SQL text is the dialect rendering of a token
sequence whose placeholder tokens, read left to right, are exactly as
many as the returned arguments, the Nth placeholder carrying parameter
index N — so each placeholder corresponds positionally to its argument
and numbered dialects embed index N in the Nth emitted placeholder. -/
theorem build_placeholder_arg_correspondence (qb : SQLQueryConstructor)
    (h : ∀ c ∈ qb.conditions, WellFormed c) :
    ∃ ts args, buildToks qb = .ok (ts, args) ∧
      qb.Build = .ok (renderToks qb.dialect ts, args) ∧
      phIndices ts = List.range' 1 args.length := by
  obtain ⟨ts, args, hb, hp⟩ := buildToks_wf qb h
  refine ⟨ts, args, hb, ?_, hp⟩
  rw [build_eq_render, hb]
  rfl

/-- Witness for C1 at a concrete builder: PostgreSQL, one equality
condition on "users". -/
theorem build_placeholder_arg_correspondence_witness :
    ∃ ts args,
      buildToks ((NewSQLQueryConstructor "users" postgresDialect).Where
        (Eq "name" (.str "John"))) = .ok (ts, args) ∧
      ((NewSQLQueryConstructor "users" postgresDialect).Where
        (Eq "name" (.str "John"))).Build =
          .ok (renderToks postgresDialect ts, args) ∧
      phIndices ts = List.range' 1 args.length := by
  have hwf : ∀ c ∈ ((NewSQLQueryConstructor "users" postgresDialect).Where
      (Eq "name" (.str "John"))).conditions, WellFormed c := by
    intro c hcm
    simp [NewSQLQueryConstructor, SQLQueryConstructor.Where, Eq] at hcm
    subst hcm
    exact WellFormed.cmp _ _ _ (Or.inl rfl)
  exact build_placeholder_arg_correspondence _ hwf

/-- Claim C2: a `Build` call leaves every builder field unchanged — the
receiver after the call equals the receiver before it, field by field —
and a second call on the unmodified builder returns an identical result
(same SQL text, same argument list). -/
theorem build_idempotent_and_nonmutating (qb : SQLQueryConstructor) :
    qb.BuildS.2 = qb ∧
    qb.BuildS.2.selectedCols = qb.selectedCols ∧
    qb.BuildS.2.conditions = qb.conditions ∧
    qb.BuildS.2.orderBys = qb.orderBys ∧
    qb.BuildS.2.limitVal = qb.limitVal ∧
    qb.BuildS.2.offsetVal = qb.offsetVal ∧
    qb.BuildS.2.BuildS.1 = qb.BuildS.1 :=
  ⟨rfl, rfl, rfl, rfl, rfl, rfl, rfl⟩

/-- Claim C3 counterexample: translating an `in` condition with an empty
value list under the MySQL dialect succeeds — no translation error is
raised — and the emitted fragment is exactly backquoted age followed by
` IN ()`. -/
theorem in_empty_list_counterexample :
    translateSimpleCondition mysqlDialect "age" "in" (GoValue.list []) 1 =
      .ok ("`age` IN ()", [], 1) := rfl

/-- Claim C3 (amended): translating an `in` condition whose value list
is empty never fails; for every dialect, field and counter value it
succeeds with fragment `<quoted field> IN ()`, an empty argument list
and an unchanged placeholder counter. -/
theorem in_empty_list_emits_empty_parens (d : SQLDialect) (field : String)
    (i : Nat) :
    translateSimpleCondition d field "in" (.list []) i =
      .ok (d.quoteIdentifier field ++ " IN ()", [], i) := by
  simp [translateSimpleCondition, phString, String.append_assoc,
    String.empty_append, String.append_empty]

/-- Claim C4 counterexample: a `between` whose operand has three
elements translates successfully — no fatal error — emitting two
placeholders in the text while returning three arguments. -/
theorem between_arity_counterexample :
    translateSimpleCondition mysqlDialect "age" "between"
      (GoValue.list [.int 1, .int 2, .int 3]) 1 =
      .ok ("`age` BETWEEN ? AND ?", [.int 1, .int 2, .int 3], 3) := rfl

/-- Claim C4 (amended): translating a range-between condition performs
no arity check: for any list operand it succeeds, emits exactly two
placeholders, advances the counter by two and returns the entire operand
list as arguments — so an operand whose length is not two yields a
successful translation whose placeholder count differs from its argument
count. -/
theorem between_no_arity_check (d : SQLDialect) (field : String)
    (minMax : List GoValue) (i : Nat) :
    translateSimpleCondition d field "between" (.list minMax) i =
      .ok (d.quoteIdentifier field ++ " BETWEEN " ++ d.getPlaceholder i ++
        " AND " ++ d.getPlaceholder (i + 1), minMax, i + 2) := by
  simp only [translateSimpleCondition]
  simp only [← String.append_assoc]
  rw [String.append_assoc (d.quoteIdentifier field) " " "BETWEEN "]
  exact rfl

/-- Claim C5 counterexample: `WhereAll` with zero conditions raises no
error — it returns the builder unchanged — and the subsequent `Build`
succeeds, emitting no WHERE clause at all. -/
theorem whereAll_empty_counterexample :
    (NewSQLQueryConstructor "users" mysqlDialect).WhereAll [] =
      NewSQLQueryConstructor "users" mysqlDialect ∧
    ((NewSQLQueryConstructor "users" mysqlDialect).WhereAll []).Build =
      .ok ("SELECT * FROM `users`", []) := ⟨rfl, rfl⟩

/-- Claim C5 (amended): `WhereAll` called with zero conditions is a
silent no-op — it raises nothing and appends nothing, leaving the
builder unchanged — and a builder with no accumulated conditions Builds
successfully with an empty argument list and no WHERE clause. -/
theorem whereAll_empty_is_noop (qb : SQLQueryConstructor) :
    qb.WhereAll [] = qb ∧
    (qb.conditions = [] → ∃ sql, qb.Build = .ok (sql, [])) := by
  constructor
  · simp [SQLQueryConstructor.WhereAll]
  · intro h
    obtain ⟨sch, d, cols, conds, obs, l, o⟩ := qb
    dsimp only at h
    subst h
    exact ⟨_, rfl⟩

/-- Witness for C5 (amended) at a concrete builder. -/
theorem whereAll_empty_is_noop_witness :
    (NewSQLQueryConstructor "t" mysqlDialect).WhereAll [] =
      NewSQLQueryConstructor "t" mysqlDialect ∧
    ∃ sql, (NewSQLQueryConstructor "t" mysqlDialect).Build = .ok (sql, []) :=
  ⟨(whereAll_empty_is_noop _).1, (whereAll_empty_is_noop _).2 rfl⟩

/-- Claim C6: a composite condition with zero children is a translation
error; with at least one child, when every child translates, the result
is the children's fragments joined by the combinator keyword (`OR` for
tag "or", otherwise `AND`) surrounded by spaces and wrapped —
unconditionally, even for a single child — in exactly one pair of
parentheses. -/
theorem composite_always_parenthesized (d : SQLDialect) (op : String) :
    (∀ i, translateComposite d op [] i =
      .error "composite condition must have at least one condition") ∧
    (∀ (c : Condition) (cs : List Condition) (i : Nat) (frags : List String)
      (args : List GoValue) (j : Nat),
      seqTranslate d (c :: cs) i = .ok (frags, args, j) →
      translateComposite d op (c :: cs) i =
        .ok ("(" ++
          joinSep (" " ++ (if op = "or" then "OR" else "AND") ++ " ") frags ++
          ")", args, j)) := by
  constructor
  · intro i
    simp [translateComposite]
  · intro c cs i frags args j hseq
    simp only [seqTranslate] at hseq
    cases h1 : translateCondition d c i with
    | error e => simp [h1] at hseq
    | ok x =>
        obtain ⟨s, a1, j1⟩ := x
        simp only [h1] at hseq
        cases h2 : seqTranslate d cs j1 with
        | error e => simp [h2] at hseq
        | ok y =>
            obtain ⟨ss, a2, k⟩ := y
            simp only [h2] at hseq
            simp at hseq
            obtain ⟨hf, ha, hj⟩ := hseq
            subst_vars
            have h3 := translateCondRest_seq d
              (" " ++ (if op = "or" then "OR" else "AND") ++ " ") cs j1 ss a2 k h2
            rw [String.append_assoc] at h3
            simp [translateComposite, h1, h3, joinSep_cons, String.append_assoc]

unseal translateCondition in
/-- Witness for C6 at a concrete two-child OR composite under MySQL. -/
theorem composite_always_parenthesized_witness :
    seqTranslate mysqlDialect [Eq "a" (.str "x"), Eq "b" (.str "y")] 1 =
      .ok (["`a` = ?", "`b` = ?"], [.str "x", .str "y"], 3) ∧
    translateComposite mysqlDialect "or"
      [Eq "a" (.str "x"), Eq "b" (.str "y")] 1 =
      .ok ("(" ++ joinSep " OR " ["`a` = ?", "`b` = ?"] ++ ")",
        [.str "x", .str "y"], 3) := by
  have h : seqTranslate mysqlDialect [Eq "a" (.str "x"), Eq "b" (.str "y")] 1 =
      .ok (["`a` = ?", "`b` = ?"], [.str "x", .str "y"], 3) := rfl
  exact ⟨h, (composite_always_parenthesized mysqlDialect "or").2 _ _ _ _ _ _ h⟩

unseal translateCondition translateCondRest in
/-- Claim C7: the "users" table queried with the single condition
equality of "name" with "John" under the PostgreSQL dialect builds
exactly the expected statement and argument list. -/
theorem postgres_eq_scenario :
    ((NewSQLQueryConstructor "users" postgresDialect).Where
      (Eq "name" (.str "John"))).Build =
      .ok ("SELECT * FROM \"users\" WHERE \"name\" = $1", [.str "John"]) := rfl

/-- Claim C8: SQL Server pagination — limit 10 with offset 20 renders
`OFFSET 20 ROWS FETCH NEXT 10 ROWS ONLY`; limit 10 alone defaults the
offset to 0 rows, both at dialect level and through `Build`. -/
theorem sqlserver_pagination_scenario :
    sqlserverDialect.generateLimitOffset (some 10) (some 20) =
      "OFFSET 20 ROWS FETCH NEXT 10 ROWS ONLY" ∧
    sqlserverDialect.generateLimitOffset (some 10) none =
      "OFFSET 0 ROWS FETCH NEXT 10 ROWS ONLY" ∧
    (((NewSQLQueryConstructor "users" sqlserverDialect).Limit 10).Offset 20).Build =
      .ok ("SELECT * FROM [users] OFFSET 20 ROWS FETCH NEXT 10 ROWS ONLY", []) ∧
    ((NewSQLQueryConstructor "users" sqlserverDialect).Limit 10).Build =
      .ok ("SELECT * FROM [users] OFFSET 0 ROWS FETCH NEXT 10 ROWS ONLY", []) :=
  ⟨rfl, rfl, rfl, rfl⟩

/-- Claim C9: for identical builder state, the MySQL and PostgreSQL
builds are renderings of one common token/argument result — they agree
on errors, on the argument list and its order, and on every literal SQL
fragment (keywords, clause order), differing only at identifier-quoting
and placeholder tokens. -/
theorem mysql_postgres_dialect_consistency (schema : String)
    (cols : List String) (conds : List Condition) (obs : List OrderBy)
    (lim off : Option Int) :
    ∃ r, (SQLQueryConstructor.mk schema mysqlDialect cols conds obs lim off).Build =
        mapRenderBuild mysqlDialect r ∧
      (SQLQueryConstructor.mk schema postgresDialect cols conds obs lim off).Build =
        mapRenderBuild postgresDialect r := by
  refine ⟨buildToks (SQLQueryConstructor.mk schema mysqlDialect cols conds obs
    lim off), build_eq_render _, ?_⟩
  rw [build_eq_render]
  congr 1

/-- Claim C10: `OrderBy` never fails and always stores a direction that
is exactly ASC or DESC — the uppercased input when that is one of the
two, ASC otherwise — and the entry this direction renders to in the
ORDER BY section ends in that direction. -/
theorem orderBy_direction_normalized (qb : SQLQueryConstructor)
    (field direction : String) :
    ∃ dir, (qb.OrderBy field direction).orderBys =
        qb.orderBys ++ [{ Field := field, Direction := dir }] ∧
      (dir = "ASC" ∨ dir = "DESC") ∧
      ((goToUpper direction = "ASC" ∨ goToUpper direction = "DESC") →
        dir = goToUpper direction) ∧
      ((goToUpper direction ≠ "ASC" ∧ goToUpper direction ≠ "DESC") →
        dir = "ASC") ∧
      ∃ p, orderBysString qb.dialect [{ Field := field, Direction := dir }] =
        p ++ dir := by
  by_cases h1 : goToUpper direction = "ASC"
  · refine ⟨"ASC", ?_, Or.inl rfl, fun _ => h1.symm, fun _ => rfl,
      qb.dialect.quoteIdentifier field ++ " ", ?_⟩
    · simp [SQLQueryConstructor.OrderBy, h1]
    · simp [orderBysString, orderBysStringRest, String.append_empty,
        String.append_assoc]
  · by_cases h2 : goToUpper direction = "DESC"
    · refine ⟨"DESC", ?_, Or.inr rfl, fun _ => h2.symm, ?_,
        qb.dialect.quoteIdentifier field ++ " ", ?_⟩
      · simp [SQLQueryConstructor.OrderBy, h1, h2]
      · intro hcon
        exact absurd h2 hcon.2
      · simp [orderBysString, orderBysStringRest, String.append_empty,
          String.append_assoc]
    · refine ⟨"ASC", ?_, Or.inl rfl, ?_, fun _ => rfl,
        qb.dialect.quoteIdentifier field ++ " ", ?_⟩
      · simp [SQLQueryConstructor.OrderBy, h1, h2]
      · intro hc
        rcases hc with hc | hc
        · exact absurd hc h1
        · exact absurd hc h2
      · simp [orderBysString, orderBysStringRest, String.append_empty,
          String.append_assoc]

/-- Witness for C10 at a concrete call: direction "desc" is stored as
"DESC". -/
theorem orderBy_direction_normalized_witness :
    ((NewSQLQueryConstructor "t" mysqlDialect).OrderBy "age" "desc").orderBys =
      [{ Field := "age", Direction := "DESC" }] := by
  obtain ⟨dir, hap, hor, hgood, hbad, hp⟩ :=
    orderBy_direction_normalized (NewSQLQueryConstructor "t" mysqlDialect)
      "age" "desc"
  have hd : dir = "DESC" := by
    rw [hgood (Or.inr (by decide))]
    decide
  subst hd
  simpa [NewSQLQueryConstructor] using hap

end EitDB
